import Mathlib

/-
Shallow embedding of src/main.go (a minimal Minecraft-style version
installer): data model, JSON decoding (modelling Go encoding/json on the
two struct shapes the program uses), the HTTP fetch helper, the artifact
download step with its ".partial" temporary file, and the main pipeline.

The filesystem is modelled as a partial map from path strings to nodes;
the network as oracles from URL to response; JSON bodies as either a
malformed byte stream or a structured JSON value.
-/

namespace Launcher

/-- URL constant from src/main.go line 16. -/
def versionManifestURL : String :=
  "https://launchermeta.mojang.com/mc/game/version_manifest.json"

/-- One manifest entry (Go struct VersionRef, src/main.go lines 18-21). -/
structure VersionRef where
  id : String
  url : String
deriving DecidableEq, Inhabited

/-- The nested latest block of the manifest (src/main.go lines 24-27). -/
structure Latest where
  release : String
  snapshot : String
deriving DecidableEq, Inhabited

/-- Go struct VersionManifest (src/main.go lines 23-29). -/
structure VersionManifest where
  latest : Latest
  versions : List VersionRef
deriving DecidableEq, Inhabited

/-- The downloads.client block of a version descriptor (src/main.go lines 35-39). -/
structure ClientDownload where
  sha1 : String
  size : Int
  url : String
deriving DecidableEq, Inhabited

/-- The downloads block of a version descriptor (src/main.go lines 34-40). -/
structure Downloads where
  client : ClientDownload
deriving DecidableEq, Inhabited

/-- Go struct VersionJSON (src/main.go lines 31-41). -/
structure VersionJSON where
  id : String
  assets : String
  downloads : Downloads
deriving DecidableEq, Inhabited

/-- Go findVersionURL loop body (src/main.go lines 90-94): scan the list in
order, return the url of the first entry whose id matches. -/
def findVersionAux : List VersionRef → String → Except String String
  | [], _ => .error "version not found"
  | v :: rest, target =>
      if v.id = target then .ok v.url else findVersionAux rest target

/-- Go findVersionURL (src/main.go lines 89-96). -/
def findVersionURL (manifest : VersionManifest) (target : String) :
    Except String String :=
  findVersionAux manifest.versions target

/-- Version resolution as performed by main (src/main.go lines 112-124):
an empty requested id is replaced by the manifest's latest release id,
then the manifest is scanned. Returns the resolved id and the lookup
result. -/
def resolve (manifest : VersionManifest) (requested : String) :
    String × Except String String :=
  let vid := if requested = "" then manifest.latest.release else requested
  (vid, findVersionURL manifest vid)

/-- Filesystem nodes: a regular file with its byte content, or a directory. -/
inductive Node where
  | file (content : String)
  | dir
deriving DecidableEq

/-- Filesystem state: a partial map from path strings to nodes. -/
def Fs := String → Option Node

/-- Write or overwrite a node at a path. -/
def setFs (fs : Fs) (p : String) (n : Node) : Fs :=
  fun q => if q = p then some n else fs q

/-- Remove the node at a path. -/
def delFs (fs : Fs) (p : String) : Fs :=
  fun q => if q = p then none else fs q

/-- Error cases of the download step (Go downloadFile, src/main.go 57-83). -/
inductive DlErr where
  | createErr
  | transportErr
  | httpStatus (status : Nat)
  | copyErr
  | renameErr
deriving DecidableEq

/-- Outcome of the download step. In Go all three cases are reported through
a single error value (nil for both the skip and the success), but the skip
branch (src/main.go 58-61, comment "already exists") is a distinct control
path, made explicit here. -/
inductive DlOutcome where
  | skipped
  | downloaded
  | failed (e : DlErr)
deriving DecidableEq

/-- Response body of the unbounded-timeout artifact GET: either the whole
content arrives, or io.Copy fails after writing a proper initial segment. -/
inductive StreamBody where
  | whole (content : String)
  | interrupted (written : String)
deriving DecidableEq

/-- Response of the artifact GET: transport failure or a status plus body. -/
inductive DlHttp where
  | transportErr
  | resp (status : Nat) (body : StreamBody)
deriving DecidableEq

/-- Environment of one downloadFile call: whether os.Create fails at a given
path (permissions, missing parent directory, path occupied by a directory),
the network response of the unbounded-timeout client, and whether the final
os.Rename fails. -/
structure DlEnv where
  createFails : String → Bool
  net : String → DlHttp
  renameFails : Bool

/-- Result of the download step: the list of filesystem states passed
through in order (initial state first, final state last), the final
filesystem, the outcome, and the list of URLs requested. -/
structure DlResult where
  states : List Fs
  fs : Fs
  outcome : DlOutcome
  requests : List String

/-- Go downloadFile (src/main.go lines 57-83). os.Stat(dest) succeeds iff a
node exists at dest, in which case the step returns at once (lines 58-61).
Otherwise os.Create truncates or creates dest+".partial" empty (line 62),
the body is streamed into it (line 77), and on full success the temporary
file is renamed onto dest (line 82). A non-200 status (line 74), transport
failure, copy failure or rename failure aborts with the .partial file left
in whatever state it reached; no cleanup is performed. -/
def downloadFile (env : DlEnv) (url dest : String) (fs : Fs) : DlResult :=
  if (fs dest).isSome then
    ⟨[fs], fs, .skipped, []⟩
  else
    let tmp := dest ++ ".partial"
    if env.createFails tmp then
      ⟨[fs], fs, .failed .createErr, []⟩
    else
      let fs1 := setFs fs tmp (.file "")
      match env.net url with
      | .transportErr => ⟨[fs, fs1], fs1, .failed .transportErr, [url]⟩
      | .resp s b =>
          if s ≠ 200 then
            ⟨[fs, fs1], fs1, .failed (.httpStatus s), [url]⟩
          else
            match b with
            | .interrupted w =>
                let fs2 := setFs fs1 tmp (.file w)
                ⟨[fs, fs1, fs2], fs2, .failed .copyErr, [url]⟩
            | .whole c =>
                let fs2 := setFs fs1 tmp (.file c)
                if env.renameFails then
                  ⟨[fs, fs1, fs2], fs2, .failed .renameErr, [url]⟩
                else
                  let fs3 := setFs (delFs fs2 tmp) dest (.file c)
                  ⟨[fs, fs1, fs2, fs3], fs3, .downloaded, [url]⟩

/-- A path never equals itself with the ".partial" suffix appended. -/
theorem ne_append_dot_part (s : String) : s ≠ s ++ ".partial" := by
  intro h
  have hlen := congrArg String.length h
  rw [String.length_append] at hlen
  have h8 : String.length ".partial" = 8 := by decide
  omega

/-- JSON values: the parse tree of a syntactically well-formed JSON
document. A number literal is represented as num n when its text is a
plain (optionally signed) decimal integer — the only numeric form Go's
strconv.ParseInt, and hence encoding/json decoding into an int field,
accepts — and as numFrac otherwise (nonzero fractional part or exponent
notation). The numeric value of a numFrac literal is not carried: no
decoder of this program can accept one, every field either rejects all
numbers or requires a plain integer literal. -/
inductive Json where
  | null
  | bool (b : Bool)
  | num (n : Int)
  | numFrac
  | str (s : String)
  | arr (elems : List Json)
  | obj (fields : List (String × Json))

/-- ASCII case folding of one character. -/
def foldChar (c : Char) : Char :=
  if 'A' ≤ c ∧ c ≤ 'Z' then Char.ofNat (c.toNat + 32) else c

/-- Case-insensitive key equality, modelling how Go encoding/json matches
an incoming object key against a struct field's tag name: an exact match
or a case-insensitive one. Go folds per Unicode simple folding
(strings.EqualFold); this model folds ASCII letters only, which coincides
with Go on ASCII keys — every tag name of this schema is ASCII and
ASCII-only keys are folded identically. -/
def eqFold (a b : String) : Bool :=
  a.data.map foldChar == b.data.map foldChar

/-- Smallest value of Go's 64-bit int. -/
def int64Min : Int := -9223372036854775808

/-- Largest value of Go's 64-bit int. -/
def int64Max : Int := 9223372036854775807

/-- Decode a JSON value into a Go string field holding cur. Modelled from
encoding/json: a JSON null leaves the current value in place; any
non-string, non-null value is an UnmarshalTypeError. -/
def decStr (cur : String) : Json → Except String String
  | .null => .ok cur
  | .str s => .ok s
  | _ => .error "json: cannot unmarshal value into field of type string"

/-- Decode a JSON value into a Go int field holding cur. Modelled from
encoding/json on a 64-bit platform: only a plain integer literal within
the int64 range is accepted (the decoder parses the literal with
strconv.ParseInt, so fractional or exponent literals and out-of-range
integers raise UnmarshalTypeError); null leaves the current value. -/
def decInt (cur : Int) : Json → Except String Int
  | .null => .ok cur
  | .num n =>
      if int64Min ≤ n ∧ n ≤ int64Max then .ok n
      else .error "json: cannot unmarshal number into field of type int"
  | _ => .error "json: cannot unmarshal value into field of type int"

/-- Decode the keys of a JSON object into the manifest's latest block
(src/main.go lines 24-27), Go style: keys are processed in document
order, a key matching a field (case-insensitively) decodes into it with
later occurrences overwriting earlier ones, unknown keys are skipped, and
the first ill-typed matching value aborts. -/
def decodeLatestFields : Latest → List (String × Json) → Except String Latest
  | cur, [] => .ok cur
  | cur, (k, v) :: rest =>
      if eqFold k "release" then do
        let r ← decStr cur.release v
        decodeLatestFields ⟨r, cur.snapshot⟩ rest
      else if eqFold k "snapshot" then do
        let s ← decStr cur.snapshot v
        decodeLatestFields ⟨cur.release, s⟩ rest
      else decodeLatestFields cur rest

/-- Decode a JSON value into a latest block holding cur: null is a no-op,
an object is decoded field by field, anything else is an error. -/
def decodeLatest (cur : Latest) : Json → Except String Latest
  | .null => .ok cur
  | .obj kvs => decodeLatestFields cur kvs
  | _ => .error "json: cannot unmarshal value into latest"

/-- Decode the keys of a JSON object into one manifest entry (src/main.go
lines 18-21), as in decodeLatestFields. -/
def decodeRefFields : VersionRef → List (String × Json) →
    Except String VersionRef
  | cur, [] => .ok cur
  | cur, (k, v) :: rest =>
      if eqFold k "id" then do
        let i ← decStr cur.id v
        decodeRefFields ⟨i, cur.url⟩ rest
      else if eqFold k "url" then do
        let u ← decStr cur.url v
        decodeRefFields ⟨cur.id, u⟩ rest
      else decodeRefFields cur rest

/-- Decode a JSON value into a manifest entry holding cur. -/
def decodeVersionRef (cur : VersionRef) : Json → Except String VersionRef
  | .null => .ok cur
  | .obj kvs => decodeRefFields cur kvs
  | _ => .error "json: cannot unmarshal value into VersionRef"

/-- Decode the elements of the versions array in order, failing on the
first ill-typed element, as Go's slice decoding does: element i is
decoded into the slice's existing element i where one exists (Go reuses
the backing array, so prior element values merge), into a zero value
beyond the old length, and the result has the array's length. -/
def decodeRefs : List VersionRef → List Json → Except String (List VersionRef)
  | _, [] => .ok []
  | [], j :: rest => do
      let v ← decodeVersionRef default j
      let vs ← decodeRefs [] rest
      .ok (v :: vs)
  | c :: cs, j :: rest => do
      let v ← decodeVersionRef c j
      let vs ← decodeRefs cs rest
      .ok (v :: vs)

/-- Decode a JSON value into the versions field holding cur: null sets a
slice to nil (Go zeroes slices on null, unlike strings and structs), an
array is decoded element-wise, anything else is an error. -/
def decodeVersionList (cur : List VersionRef) :
    Json → Except String (List VersionRef)
  | .null => .ok []
  | .arr es => decodeRefs cur es
  | _ => .error "json: cannot unmarshal value into []VersionRef"

/-- Decode the keys of a JSON object into a manifest holding cur. -/
def decodeManifestFields : VersionManifest → List (String × Json) →
    Except String VersionManifest
  | cur, [] => .ok cur
  | cur, (k, v) :: rest =>
      if eqFold k "latest" then do
        let l ← decodeLatest cur.latest v
        decodeManifestFields ⟨l, cur.versions⟩ rest
      else if eqFold k "versions" then do
        let vs ← decodeVersionList cur.versions v
        decodeManifestFields ⟨cur.latest, vs⟩ rest
      else decodeManifestFields cur rest

/-- Decode a JSON value into a manifest holding cur. -/
def decodeManifestInto (cur : VersionManifest) :
    Json → Except String VersionManifest
  | .null => .ok cur
  | .obj kvs => decodeManifestFields cur kvs
  | _ => .error "json: cannot unmarshal value into VersionManifest"

/-- Decode a whole version manifest (src/main.go lines 23-29) from the
zero value, as fetchJSON does with a fresh var: the top level must be a
JSON object (or null); keys matching known fields (case-insensitively,
later duplicates overwriting) must have the expected shapes; missing
fields keep their zero values; unknown keys are ignored. -/
def decodeManifest (j : Json) : Except String VersionManifest :=
  decodeManifestInto default j

/-- Decode the keys of a JSON object into a downloads.client block
(src/main.go lines 35-39) holding cur. -/
def decodeClientFields : ClientDownload → List (String × Json) →
    Except String ClientDownload
  | cur, [] => .ok cur
  | cur, (k, v) :: rest =>
      if eqFold k "sha1" then do
        let h ← decStr cur.sha1 v
        decodeClientFields ⟨h, cur.size, cur.url⟩ rest
      else if eqFold k "size" then do
        let n ← decInt cur.size v
        decodeClientFields ⟨cur.sha1, n, cur.url⟩ rest
      else if eqFold k "url" then do
        let u ← decStr cur.url v
        decodeClientFields ⟨cur.sha1, cur.size, u⟩ rest
      else decodeClientFields cur rest

/-- Decode a JSON value into a downloads.client block holding cur. -/
def decodeClient (cur : ClientDownload) : Json → Except String ClientDownload
  | .null => .ok cur
  | .obj kvs => decodeClientFields cur kvs
  | _ => .error "json: cannot unmarshal value into client"

/-- Decode the keys of a JSON object into a downloads block (src/main.go
lines 34-40) holding cur. -/
def decodeDownloadsFields : Downloads → List (String × Json) →
    Except String Downloads
  | cur, [] => .ok cur
  | cur, (k, v) :: rest =>
      if eqFold k "client" then do
        let c ← decodeClient cur.client v
        decodeDownloadsFields ⟨c⟩ rest
      else decodeDownloadsFields cur rest

/-- Decode a JSON value into a downloads block holding cur. -/
def decodeDownloads (cur : Downloads) : Json → Except String Downloads
  | .null => .ok cur
  | .obj kvs => decodeDownloadsFields cur kvs
  | _ => .error "json: cannot unmarshal value into downloads"

/-- Decode the keys of a JSON object into a version descriptor
(src/main.go lines 31-41) holding cur. -/
def decodeVersionJSONFields : VersionJSON → List (String × Json) →
    Except String VersionJSON
  | cur, [] => .ok cur
  | cur, (k, v) :: rest =>
      if eqFold k "id" then do
        let i ← decStr cur.id v
        decodeVersionJSONFields ⟨i, cur.assets, cur.downloads⟩ rest
      else if eqFold k "assets" then do
        let a ← decStr cur.assets v
        decodeVersionJSONFields ⟨cur.id, a, cur.downloads⟩ rest
      else if eqFold k "downloads" then do
        let d ← decodeDownloads cur.downloads v
        decodeVersionJSONFields ⟨cur.id, cur.assets, d⟩ rest
      else decodeVersionJSONFields cur rest

/-- Decode a JSON value into a version descriptor holding cur. -/
def decodeVersionJSONInto (cur : VersionJSON) :
    Json → Except String VersionJSON
  | .null => .ok cur
  | .obj kvs => decodeVersionJSONFields cur kvs
  | _ => .error "json: cannot unmarshal value into VersionJSON"

/-- Decode a whole version descriptor (src/main.go lines 31-41) from the
zero value, as decodeManifest. -/
def decodeVersionJSON (j : Json) : Except String VersionJSON :=
  decodeVersionJSONInto default j

/-- Body of a bounded-timeout GET response: either syntactically malformed
bytes or a well-formed JSON document. -/
inductive Body where
  | malformed
  | wellFormed (j : Json)

/-- Response of the bounded-timeout client used by fetchJSON: transport
failure (network, DNS, timeout) or a status code plus body. -/
inductive FetchResult where
  | transportErr
  | resp (status : Nat) (body : Body)

/-- Go fetchJSON (src/main.go lines 43-55): one GET with the 20s-timeout
client; transport failure is returned as-is; a non-200 status fails with
a message naming the status and the url; otherwise the body is decoded,
failing on malformed JSON or on an ill-typed field. -/
def fetchJSON {α : Type} (net : String → FetchResult) (url : String)
    (dec : Json → Except String α) : Except String α :=
  match net url with
  | .transportErr => .error ("Get \x22" ++ url ++ "\x22: network error")
  | .resp s b =>
      if s ≠ 200 then .error ("http " ++ toString s ++ " fetching " ++ url)
      else
        match b with
        | .malformed => .error "invalid character in JSON"
        | .wellFormed j => dec j

/-- Go ensureDir (src/main.go lines 85-87), an os.MkdirAll call: failure
(permissions, a file occupying the path) comes from the environment oracle;
on success the directory exists afterwards. -/
def ensureDir (mkdirFails : String → Bool) (p : String) (fs : Fs) :
    Except String Fs :=
  if mkdirFails p then .error "mkdir: permission denied"
  else .ok (setFs fs p .dir)

/-- Command-line configuration (src/main.go lines 99-103): the four flags,
already parsed, with defaults applied. -/
structure Config where
  version : String
  runOffline : Bool
  mcdir : String
  username : String
deriving DecidableEq

/-- Environment of one whole run: the bounded-timeout network oracle used
by fetchJSON, the download-step environment, the os.MkdirAll failure
oracle, and the result of running java on a jar (none on exit status 0,
some message on spawn failure or non-zero exit). -/
structure Env where
  net20 : String → FetchResult
  dl : DlEnv
  mkdirFails : String → Bool
  javaErr : String → Option String

/-- Observable result of one whole run: the process exit code, the final
filesystem, the lines printed to standard output and to standard error,
the URLs requested over the network in order, and the jar paths handed to
java. -/
structure RunResult where
  exitCode : Nat
  fs : Fs
  stdout : List String
  stderr : List String
  requests : List String
  javaRuns : List String

/-- filepath.Join of two components (Go cleans the result; the paths built
by this program contain no "." or ".." segments, where Join is plain
concatenation with a separator). -/
def pathJoin (a b : String) : String := a ++ "/" ++ b

/-- Go main (src/main.go lines 98-163): fetch the manifest, resolve the
version id (an empty -version flag selects the latest release), fetch the
version descriptor, create the version directory, download the client jar,
optionally run java on it, and exit 0; any failing step prints one
diagnostic line to standard error and exits 1. -/
def runMain (cfg : Config) (env : Env) (fs : Fs) : RunResult :=
  let out0 := ["Fetching version manifest..."]
  match fetchJSON env.net20 versionManifestURL decodeManifest with
  | .error e =>
      ⟨1, fs, out0, ["failed to fetch manifest: " ++ e],
        [versionManifestURL], []⟩
  | .ok manifest =>
      let vid := if cfg.version = "" then manifest.latest.release
                 else cfg.version
      let out1 := if cfg.version = "" then
          out0 ++ ["No version specified; using latest release: " ++
            manifest.latest.release]
        else out0
      match findVersionURL manifest vid with
      | .error _ =>
          ⟨1, fs, out1, ["version not found in manifest: " ++ vid],
            [versionManifestURL], []⟩
      | .ok vurl =>
          let out2 := out1 ++ ["Fetching version JSON for " ++ vid]
          match fetchJSON env.net20 vurl decodeVersionJSON with
          | .error e =>
              ⟨1, fs, out2, ["failed to fetch version json: " ++ e],
                [versionManifestURL, vurl], []⟩
          | .ok vjson =>
              let versionDir := pathJoin (pathJoin cfg.mcdir "versions") vid
              match ensureDir env.mkdirFails versionDir fs with
              | .error e =>
                  ⟨1, fs, out2, ["failed to create version dir: " ++ e],
                    [versionManifestURL, vurl], []⟩
              | .ok fs1 =>
                  let jarPath := pathJoin versionDir (vid ++ ".jar")
                  let out3 := out2 ++ ["Downloading client jar to " ++ jarPath]
                  let r := downloadFile env.dl vjson.downloads.client.url
                    jarPath fs1
                  let reqs := [versionManifestURL, vurl] ++ r.requests
                  match r.outcome with
                  | .failed _ =>
                      ⟨1, r.fs, out3, ["failed to download client jar"],
                        reqs, []⟩
                  | _ =>
                      let out4 := out3 ++ ["Downloaded."]
                      if cfg.runOffline then
                        let out5 := out4 ++
                          ["Attempting to run JAR offline (minimal test). You must have Java installed and on PATH."]
                        match env.javaErr jarPath with
                        | some e =>
                            ⟨1, r.fs, out5,
                              ["java failed: " ++ e,
                               "For a real launcher you must build the full classpath (libraries), extract natives, and pass proper args like --username, --version, --gameDir, --assetsDir, --accessToken, etc."],
                              reqs, [jarPath]⟩
                        | none =>
                            ⟨0, r.fs,
                              out5 ++ ["Done. Version installed to " ++ versionDir,
                                "Next steps: assemble libraries, extract natives and implement Microsoft/Xbox OAuth for online play."],
                              [], reqs, [jarPath]⟩
                      else
                        ⟨0, r.fs,
                          out4 ++ ["Done. Version installed to " ++ versionDir,
                            "Next steps: assemble libraries, extract natives and implement Microsoft/Xbox OAuth for online play."],
                          [], reqs, []⟩

/-- Success of every step the run performs, written after the spec's
exit-code contract (spec section 6): manifest fetch, version resolution,
metadata fetch, directory creation, download (skip counting as success),
and, when requested, the launch. Later steps are only consulted when every
earlier step succeeded, mirroring the sequential pipeline. -/
def allStepsSucceed (cfg : Config) (env : Env) (fs : Fs) : Bool :=
  match fetchJSON env.net20 versionManifestURL decodeManifest with
  | .error _ => false
  | .ok manifest =>
      let vid := if cfg.version = "" then manifest.latest.release
                 else cfg.version
      match findVersionURL manifest vid with
      | .error _ => false
      | .ok vurl =>
          match fetchJSON env.net20 vurl decodeVersionJSON with
          | .error _ => false
          | .ok vjson =>
              let versionDir := pathJoin (pathJoin cfg.mcdir "versions") vid
              match ensureDir env.mkdirFails versionDir fs with
              | .error _ => false
              | .ok fs1 =>
                  let jarPath := pathJoin versionDir (vid ++ ".jar")
                  match (downloadFile env.dl vjson.downloads.client.url
                      jarPath fs1).outcome with
                  | .failed _ => false
                  | _ =>
                      if cfg.runOffline then (env.javaErr jarPath).isNone
                      else true

/-- Whether a JSON value is one Go encoding/json accepts for a string
field: a string, or null (no-op). -/
def strOk : Json → Bool
  | .null => true
  | .str _ => true
  | _ => false

/-- Whether a JSON value is one Go encoding/json accepts for an int
field: null, or a plain integer literal within the int64 range. -/
def intOk : Json → Bool
  | .null => true
  | .num n => if int64Min ≤ n ∧ n ≤ int64Max then true else false
  | _ => false

/-- Shape requirement one key of a latest-block object imposes: a key
matching a field must carry an accepted value, other keys are free. -/
def latestFieldOk (k : String) (v : Json) : Bool :=
  if eqFold k "release" then strOk v
  else if eqFold k "snapshot" then strOk v
  else true

/-- Shape check for the manifest's latest block. -/
def latestOk : Json → Bool
  | .null => true
  | .obj kvs => kvs.all (fun kv => latestFieldOk kv.1 kv.2)
  | _ => false

/-- Shape requirement one key of a manifest-entry object imposes. -/
def refFieldOk (k : String) (v : Json) : Bool :=
  if eqFold k "id" then strOk v
  else if eqFold k "url" then strOk v
  else true

/-- Shape check for one manifest entry. -/
def refOk : Json → Bool
  | .null => true
  | .obj kvs => kvs.all (fun kv => refFieldOk kv.1 kv.2)
  | _ => false

/-- Shape check for the manifest's versions field. -/
def versionsOk : Json → Bool
  | .null => true
  | .arr es => es.all refOk
  | _ => false

/-- Shape requirement one key of a manifest object imposes. -/
def manifestFieldOk (k : String) (v : Json) : Bool :=
  if eqFold k "latest" then latestOk v
  else if eqFold k "versions" then versionsOk v
  else true

/-- A well-formed JSON body decodes as a manifest exactly when it passes
this shape check: object (or null) top level, every key that matches a
known field (case-insensitively, every duplicate occurrence included)
carrying a value of the expected shape. -/
def manifestWellTyped : Json → Bool
  | .null => true
  | .obj kvs => kvs.all (fun kv => manifestFieldOk kv.1 kv.2)
  | _ => false

/-- Shape requirement one key of a downloads.client object imposes. -/
def clientFieldOk (k : String) (v : Json) : Bool :=
  if eqFold k "sha1" then strOk v
  else if eqFold k "size" then intOk v
  else if eqFold k "url" then strOk v
  else true

/-- Shape check for the downloads.client block. -/
def clientOk : Json → Bool
  | .null => true
  | .obj kvs => kvs.all (fun kv => clientFieldOk kv.1 kv.2)
  | _ => false

/-- Shape requirement one key of a downloads object imposes. -/
def downloadsFieldOk (k : String) (v : Json) : Bool :=
  if eqFold k "client" then clientOk v
  else true

/-- Shape check for the downloads block. -/
def downloadsOk : Json → Bool
  | .null => true
  | .obj kvs => kvs.all (fun kv => downloadsFieldOk kv.1 kv.2)
  | _ => false

/-- Shape requirement one key of a version-descriptor object imposes. -/
def versionJSONFieldOk (k : String) (v : Json) : Bool :=
  if eqFold k "id" then strOk v
  else if eqFold k "assets" then strOk v
  else if eqFold k "downloads" then downloadsOk v
  else true

/-- Shape check for a whole version descriptor. -/
def versionJSONWellTyped : Json → Bool
  | .null => true
  | .obj kvs => kvs.all (fun kv => versionJSONFieldOk kv.1 kv.2)
  | _ => false

/-- Whether an Except value is a success. -/
def exOk {α : Type} : Except String α → Bool
  | .ok _ => true
  | .error _ => false

/-- findVersionAux agrees with List.find?: it returns the url of the first
entry in sequence order whose id matches, and fails when none matches. -/
theorem findVersionAux_eq_find? (l : List VersionRef) (target : String) :
    findVersionAux l target =
      match l.find? (fun r => r.id = target) with
      | some v => Except.ok v.url
      | none => Except.error "version not found" := by
  induction l with
  | nil => rfl
  | cons v rest ih =>
      by_cases h : v.id = target
      · simp [findVersionAux, h, List.find?_cons_of_pos]
      · simp only [findVersionAux, if_neg h]
        rw [ih, List.find?_cons_of_neg]
        simpa using h

/-- findVersionAux fails exactly when no entry matches. -/
theorem findVersionAux_none (l : List VersionRef) (target : String)
    (h : ∀ v ∈ l, v.id ≠ target) :
    findVersionAux l target = Except.error "version not found" := by
  rw [findVersionAux_eq_find?]
  have : l.find? (fun r => r.id = target) = none := by
    rw [List.find?_eq_none]
    intro v hv
    simpa using h v hv
  rw [this]

/-- String-field decoding succeeds exactly on the accepted shapes,
whatever the current value. -/
theorem exOk_decStr (cur : String) (j : Json) :
    exOk (decStr cur j) = strOk j := by
  cases j <;> rfl

/-- Int-field decoding succeeds exactly on the accepted shapes: null or a
plain integer literal within the int64 range. -/
theorem exOk_decInt (cur : Int) (j : Json) :
    exOk (decInt cur j) = intOk j := by
  cases j with
  | num n =>
      by_cases hc : int64Min ≤ n ∧ n ≤ int64Max <;>
        simp [decInt, intOk, hc, exOk]
  | null => rfl
  | bool b => rfl
  | numFrac => rfl
  | str s => rfl
  | arr es => rfl
  | obj kvs => rfl

/-- Key-by-key decoding of a latest block succeeds exactly when every key
matching a field carries an accepted value, whatever the current value. -/
theorem exOk_decodeLatestFields (kvs : List (String × Json)) :
    ∀ cur, exOk (decodeLatestFields cur kvs) =
      kvs.all (fun kv => latestFieldOk kv.1 kv.2) := by
  induction kvs with
  | nil => intro cur; rfl
  | cons kv rest ih =>
      intro cur
      obtain ⟨k, v⟩ := kv
      simp only [decodeLatestFields, List.all_cons, latestFieldOk]
      by_cases h1 : eqFold k "release" = true
      · simp only [if_pos h1]
        cases hd : decStr cur.release v with
        | error e =>
            have hv := exOk_decStr cur.release v
            rw [hd] at hv
            simp [exOk, Bind.bind, Except.bind, ← hv]
        | ok r =>
            have hv := exOk_decStr cur.release v
            rw [hd] at hv
            simp only [Bind.bind, Except.bind]
            rw [ih, ← hv]
            simp [exOk, latestFieldOk, refFieldOk, clientFieldOk,
              downloadsFieldOk, versionJSONFieldOk, manifestFieldOk]
      · simp only [if_neg h1]
        by_cases h2 : eqFold k "snapshot" = true
        · simp only [if_pos h2]
          cases hd : decStr cur.snapshot v with
          | error e =>
              have hv := exOk_decStr cur.snapshot v
              rw [hd] at hv
              simp [exOk, Bind.bind, Except.bind, ← hv]
          | ok s =>
              have hv := exOk_decStr cur.snapshot v
              rw [hd] at hv
              simp only [Bind.bind, Except.bind]
              rw [ih, ← hv]
              simp [exOk, latestFieldOk, refFieldOk, clientFieldOk,
                downloadsFieldOk, versionJSONFieldOk, manifestFieldOk]
        · simp only [if_neg h2]
          exact ih cur

/-- Latest-block decoding succeeds exactly on well-shaped input. -/
theorem exOk_decodeLatest (cur : Latest) (j : Json) :
    exOk (decodeLatest cur j) = latestOk j := by
  cases j with
  | obj kvs => exact exOk_decodeLatestFields kvs cur
  | null => rfl
  | bool b => rfl
  | num n => rfl
  | numFrac => rfl
  | str s => rfl
  | arr es => rfl

/-- Key-by-key decoding of a manifest entry succeeds exactly when every
key matching a field carries an accepted value. -/
theorem exOk_decodeRefFields (kvs : List (String × Json)) :
    ∀ cur, exOk (decodeRefFields cur kvs) =
      kvs.all (fun kv => refFieldOk kv.1 kv.2) := by
  induction kvs with
  | nil => intro cur; rfl
  | cons kv rest ih =>
      intro cur
      obtain ⟨k, v⟩ := kv
      simp only [decodeRefFields, List.all_cons, refFieldOk]
      by_cases h1 : eqFold k "id" = true
      · simp only [if_pos h1]
        cases hd : decStr cur.id v with
        | error e =>
            have hv := exOk_decStr cur.id v
            rw [hd] at hv
            simp [exOk, Bind.bind, Except.bind, ← hv]
        | ok i =>
            have hv := exOk_decStr cur.id v
            rw [hd] at hv
            simp only [Bind.bind, Except.bind]
            rw [ih, ← hv]
            simp [exOk, latestFieldOk, refFieldOk, clientFieldOk,
              downloadsFieldOk, versionJSONFieldOk, manifestFieldOk]
      · simp only [if_neg h1]
        by_cases h2 : eqFold k "url" = true
        · simp only [if_pos h2]
          cases hd : decStr cur.url v with
          | error e =>
              have hv := exOk_decStr cur.url v
              rw [hd] at hv
              simp [exOk, Bind.bind, Except.bind, ← hv]
          | ok u =>
              have hv := exOk_decStr cur.url v
              rw [hd] at hv
              simp only [Bind.bind, Except.bind]
              rw [ih, ← hv]
              simp [exOk, latestFieldOk, refFieldOk, clientFieldOk,
                downloadsFieldOk, versionJSONFieldOk, manifestFieldOk]
        · simp only [if_neg h2]
          exact ih cur

/-- Manifest-entry decoding succeeds exactly on well-shaped input. -/
theorem exOk_decodeVersionRef (cur : VersionRef) (j : Json) :
    exOk (decodeVersionRef cur j) = refOk j := by
  cases j with
  | obj kvs => exact exOk_decodeRefFields kvs cur
  | null => rfl
  | bool b => rfl
  | num n => rfl
  | numFrac => rfl
  | str s => rfl
  | arr es => rfl

/-- Element-wise decoding of the versions array succeeds exactly when
every element is well shaped, whatever the merged-into current list. -/
theorem exOk_decodeRefs (es : List Json) :
    ∀ cur, exOk (decodeRefs cur es) = es.all refOk := by
  induction es with
  | nil => intro cur; cases cur <;> rfl
  | cons j rest ih =>
      intro cur
      cases cur with
      | nil =>
          simp only [decodeRefs, List.all_cons]
          cases hd : decodeVersionRef default j with
          | error e =>
              have hv := exOk_decodeVersionRef default j
              rw [hd] at hv
              simp [exOk, Bind.bind, Except.bind, ← hv]
          | ok v =>
              have hv := exOk_decodeVersionRef default j
              rw [hd] at hv
              cases hr : decodeRefs [] rest with
              | error e2 =>
                  have hrr := ih []
                  rw [hr] at hrr
                  simp only [Bind.bind, Except.bind]
                  rw [← hv, ← hrr]
                  simp [exOk]
              | ok vs =>
                  have hrr := ih []
                  rw [hr] at hrr
                  simp only [Bind.bind, Except.bind]
                  rw [← hv, ← hrr]
                  simp [exOk]
      | cons c cs =>
          simp only [decodeRefs, List.all_cons]
          cases hd : decodeVersionRef c j with
          | error e =>
              have hv := exOk_decodeVersionRef c j
              rw [hd] at hv
              simp [exOk, Bind.bind, Except.bind, ← hv]
          | ok v =>
              have hv := exOk_decodeVersionRef c j
              rw [hd] at hv
              cases hr : decodeRefs cs rest with
              | error e2 =>
                  have hrr := ih cs
                  rw [hr] at hrr
                  simp only [Bind.bind, Except.bind]
                  rw [← hv, ← hrr]
                  simp [exOk]
              | ok vs =>
                  have hrr := ih cs
                  rw [hr] at hrr
                  simp only [Bind.bind, Except.bind]
                  rw [← hv, ← hrr]
                  simp [exOk]

/-- Versions-field decoding succeeds exactly on well-shaped input. -/
theorem exOk_decodeVersionList (cur : List VersionRef) (j : Json) :
    exOk (decodeVersionList cur j) = versionsOk j := by
  cases j with
  | arr es => exact exOk_decodeRefs es cur
  | null => rfl
  | bool b => rfl
  | num n => rfl
  | numFrac => rfl
  | str s => rfl
  | obj kvs => rfl

/-- Key-by-key decoding of a downloads.client block succeeds exactly when
every key matching a field carries an accepted value. -/
theorem exOk_decodeClientFields (kvs : List (String × Json)) :
    ∀ cur, exOk (decodeClientFields cur kvs) =
      kvs.all (fun kv => clientFieldOk kv.1 kv.2) := by
  induction kvs with
  | nil => intro cur; rfl
  | cons kv rest ih =>
      intro cur
      obtain ⟨k, v⟩ := kv
      simp only [decodeClientFields, List.all_cons, clientFieldOk]
      by_cases h1 : eqFold k "sha1" = true
      · simp only [if_pos h1]
        cases hd : decStr cur.sha1 v with
        | error e =>
            have hv := exOk_decStr cur.sha1 v
            rw [hd] at hv
            simp [exOk, Bind.bind, Except.bind, ← hv]
        | ok hsh =>
            have hv := exOk_decStr cur.sha1 v
            rw [hd] at hv
            simp only [Bind.bind, Except.bind]
            rw [ih, ← hv]
            simp [exOk, latestFieldOk, refFieldOk, clientFieldOk,
              downloadsFieldOk, versionJSONFieldOk, manifestFieldOk]
      · simp only [if_neg h1]
        by_cases h2 : eqFold k "size" = true
        · simp only [if_pos h2]
          cases hd : decInt cur.size v with
          | error e =>
              have hv := exOk_decInt cur.size v
              rw [hd] at hv
              simp [exOk, Bind.bind, Except.bind, ← hv]
          | ok n =>
              have hv := exOk_decInt cur.size v
              rw [hd] at hv
              simp only [Bind.bind, Except.bind]
              rw [ih, ← hv]
              simp [exOk, latestFieldOk, refFieldOk, clientFieldOk,
                downloadsFieldOk, versionJSONFieldOk, manifestFieldOk]
        · simp only [if_neg h2]
          by_cases h3 : eqFold k "url" = true
          · simp only [if_pos h3]
            cases hd : decStr cur.url v with
            | error e =>
                have hv := exOk_decStr cur.url v
                rw [hd] at hv
                simp [exOk, Bind.bind, Except.bind, ← hv]
            | ok u =>
                have hv := exOk_decStr cur.url v
                rw [hd] at hv
                simp only [Bind.bind, Except.bind]
                rw [ih, ← hv]
                simp [exOk, latestFieldOk, refFieldOk, clientFieldOk,
                  downloadsFieldOk, versionJSONFieldOk, manifestFieldOk]
          · simp only [if_neg h3]
            exact ih cur

/-- Client-block decoding succeeds exactly on well-shaped input. -/
theorem exOk_decodeClient (cur : ClientDownload) (j : Json) :
    exOk (decodeClient cur j) = clientOk j := by
  cases j with
  | obj kvs => exact exOk_decodeClientFields kvs cur
  | null => rfl
  | bool b => rfl
  | num n => rfl
  | numFrac => rfl
  | str s => rfl
  | arr es => rfl

/-- Key-by-key decoding of a downloads block succeeds exactly when every
key matching the client field carries an accepted value. -/
theorem exOk_decodeDownloadsFields (kvs : List (String × Json)) :
    ∀ cur, exOk (decodeDownloadsFields cur kvs) =
      kvs.all (fun kv => downloadsFieldOk kv.1 kv.2) := by
  induction kvs with
  | nil => intro cur; rfl
  | cons kv rest ih =>
      intro cur
      obtain ⟨k, v⟩ := kv
      simp only [decodeDownloadsFields, List.all_cons, downloadsFieldOk]
      by_cases h1 : eqFold k "client" = true
      · simp only [if_pos h1]
        cases hd : decodeClient cur.client v with
        | error e =>
            have hv := exOk_decodeClient cur.client v
            rw [hd] at hv
            simp [exOk, Bind.bind, Except.bind, ← hv]
        | ok c =>
            have hv := exOk_decodeClient cur.client v
            rw [hd] at hv
            simp only [Bind.bind, Except.bind]
            rw [ih, ← hv]
            simp [exOk, latestFieldOk, refFieldOk, clientFieldOk,
              downloadsFieldOk, versionJSONFieldOk, manifestFieldOk]
      · simp only [if_neg h1]
        exact ih cur

/-- Downloads-block decoding succeeds exactly on well-shaped input. -/
theorem exOk_decodeDownloads (cur : Downloads) (j : Json) :
    exOk (decodeDownloads cur j) = downloadsOk j := by
  cases j with
  | obj kvs => exact exOk_decodeDownloadsFields kvs cur
  | null => rfl
  | bool b => rfl
  | num n => rfl
  | numFrac => rfl
  | str s => rfl
  | arr es => rfl

/-- Key-by-key decoding of a version descriptor succeeds exactly when
every key matching a field carries an accepted value. -/
theorem exOk_decodeVersionJSONFields (kvs : List (String × Json)) :
    ∀ cur, exOk (decodeVersionJSONFields cur kvs) =
      kvs.all (fun kv => versionJSONFieldOk kv.1 kv.2) := by
  induction kvs with
  | nil => intro cur; rfl
  | cons kv rest ih =>
      intro cur
      obtain ⟨k, v⟩ := kv
      simp only [decodeVersionJSONFields, List.all_cons, versionJSONFieldOk]
      by_cases h1 : eqFold k "id" = true
      · simp only [if_pos h1]
        cases hd : decStr cur.id v with
        | error e =>
            have hv := exOk_decStr cur.id v
            rw [hd] at hv
            simp [exOk, Bind.bind, Except.bind, ← hv]
        | ok i =>
            have hv := exOk_decStr cur.id v
            rw [hd] at hv
            simp only [Bind.bind, Except.bind]
            rw [ih, ← hv]
            simp [exOk, latestFieldOk, refFieldOk, clientFieldOk,
              downloadsFieldOk, versionJSONFieldOk, manifestFieldOk]
      · simp only [if_neg h1]
        by_cases h2 : eqFold k "assets" = true
        · simp only [if_pos h2]
          cases hd : decStr cur.assets v with
          | error e =>
              have hv := exOk_decStr cur.assets v
              rw [hd] at hv
              simp [exOk, Bind.bind, Except.bind, ← hv]
          | ok a =>
              have hv := exOk_decStr cur.assets v
              rw [hd] at hv
              simp only [Bind.bind, Except.bind]
              rw [ih, ← hv]
              simp [exOk, latestFieldOk, refFieldOk, clientFieldOk,
                downloadsFieldOk, versionJSONFieldOk, manifestFieldOk]
        · simp only [if_neg h2]
          by_cases h3 : eqFold k "downloads" = true
          · simp only [if_pos h3]
            cases hd : decodeDownloads cur.downloads v with
            | error e =>
                have hv := exOk_decodeDownloads cur.downloads v
                rw [hd] at hv
                simp [exOk, Bind.bind, Except.bind, ← hv]
            | ok d =>
                have hv := exOk_decodeDownloads cur.downloads v
                rw [hd] at hv
                simp only [Bind.bind, Except.bind]
                rw [ih, ← hv]
                simp [exOk, latestFieldOk, refFieldOk, clientFieldOk,
                  downloadsFieldOk, versionJSONFieldOk, manifestFieldOk]
          · simp only [if_neg h3]
            exact ih cur

/-- Version-descriptor decoding into any current value succeeds exactly
on well-shaped input. -/
theorem exOk_decodeVersionJSONInto (cur : VersionJSON) (j : Json) :
    exOk (decodeVersionJSONInto cur j) = versionJSONWellTyped j := by
  cases j with
  | obj kvs => exact exOk_decodeVersionJSONFields kvs cur
  | null => rfl
  | bool b => rfl
  | num n => rfl
  | numFrac => rfl
  | str s => rfl
  | arr es => rfl

/-- Key-by-key decoding of a manifest succeeds exactly when every key
matching a field carries an accepted value. -/
theorem exOk_decodeManifestFields (kvs : List (String × Json)) :
    ∀ cur, exOk (decodeManifestFields cur kvs) =
      kvs.all (fun kv => manifestFieldOk kv.1 kv.2) := by
  induction kvs with
  | nil => intro cur; rfl
  | cons kv rest ih =>
      intro cur
      obtain ⟨k, v⟩ := kv
      simp only [decodeManifestFields, List.all_cons, manifestFieldOk]
      by_cases h1 : eqFold k "latest" = true
      · simp only [if_pos h1]
        cases hd : decodeLatest cur.latest v with
        | error e =>
            have hv := exOk_decodeLatest cur.latest v
            rw [hd] at hv
            simp [exOk, Bind.bind, Except.bind, ← hv]
        | ok l =>
            have hv := exOk_decodeLatest cur.latest v
            rw [hd] at hv
            simp only [Bind.bind, Except.bind]
            rw [ih, ← hv]
            simp [exOk, latestFieldOk, refFieldOk, clientFieldOk,
              downloadsFieldOk, versionJSONFieldOk, manifestFieldOk]
      · simp only [if_neg h1]
        by_cases h2 : eqFold k "versions" = true
        · simp only [if_pos h2]
          cases hd : decodeVersionList cur.versions v with
          | error e =>
              have hv := exOk_decodeVersionList cur.versions v
              rw [hd] at hv
              simp [exOk, Bind.bind, Except.bind, ← hv]
          | ok vs =>
              have hv := exOk_decodeVersionList cur.versions v
              rw [hd] at hv
              simp only [Bind.bind, Except.bind]
              rw [ih, ← hv]
              simp [exOk, latestFieldOk, refFieldOk, clientFieldOk,
                downloadsFieldOk, versionJSONFieldOk, manifestFieldOk]
        · simp only [if_neg h2]
          exact ih cur

/-- Manifest decoding into any current value succeeds exactly on
well-shaped input. -/
theorem exOk_decodeManifestInto (cur : VersionManifest) (j : Json) :
    exOk (decodeManifestInto cur j) = manifestWellTyped j := by
  cases j with
  | obj kvs => exact exOk_decodeManifestFields kvs cur
  | null => rfl
  | bool b => rfl
  | num n => rfl
  | numFrac => rfl
  | str s => rfl
  | arr es => rfl

/-- Manifest decoding succeeds exactly on well-shaped input. -/
theorem exOk_decodeManifest (j : Json) :
    exOk (decodeManifest j) = manifestWellTyped j :=
  exOk_decodeManifestInto default j

/-- Version-descriptor decoding succeeds exactly on well-shaped input. -/
theorem exOk_decodeVersionJSON (j : Json) :
    exOk (decodeVersionJSON j) = versionJSONWellTyped j :=
  exOk_decodeVersionJSONInto default j

/-- Empty filesystem. -/
def fsEmpty : Fs := fun _ => none

/-- Filesystem holding one regular file at "/d.jar". -/
def fsOne : Fs := fun p => if p = "/d.jar" then some (.file "x") else none

/-- Download environment whose network always fails at transport level. -/
def dlEnvNet : DlEnv := ⟨fun _ => false, fun _ => .transportErr, false⟩

/-- Download environment that serves every URL with status 200 and body
"abc". -/
def dlEnvOk : DlEnv := ⟨fun _ => false, fun _ => .resp 200 (.whole "abc"), false⟩

/-- Download environment that serves every URL with status 404. -/
def dlEnv404 : DlEnv :=
  ⟨fun _ => false, fun _ => .resp 404 (.whole ""), false⟩

/-- The manifest of the spec's scenario: latest release 1.20.2 with one
matching entry. -/
def m0 : VersionManifest :=
  ⟨⟨"1.20.2", ""⟩, [⟨"1.20.2", "https://x/1.20.2.json"⟩]⟩

/-- JSON document that decodes to m0. -/
def manifestJson0 : Json :=
  .obj [("latest", .obj [("release", .str "1.20.2")]),
        ("versions", .arr [.obj [("id", .str "1.20.2"),
                                 ("url", .str "https://x/1.20.2.json")]])]

/-- Configuration with no -version flag and defaults otherwise. -/
def cfg0 : Config := ⟨"", false, "/mc", "Player"⟩

/-- Benign whole-run environment: the manifest endpoint serves
manifestJson0, every other URL serves an empty JSON object, every
download succeeds, directories can be created, java exits 0. -/
def env0 : Env where
  net20 := fun u =>
    if u = versionManifestURL then .resp 200 (.wellFormed manifestJson0)
    else .resp 200 (.wellFormed (Json.obj []))
  dl := ⟨fun _ => false, fun _ => .resp 200 (.whole "JARBYTES"), false⟩
  mkdirFails := fun _ => false
  javaErr := fun _ => none

/-- A download that completes puts a node at the destination path. -/
theorem downloaded_dest_isSome (env : DlEnv) (url dest : String) (fs : Fs) :
    (downloadFile env url dest fs).outcome = .downloaded →
    ((downloadFile env url dest fs).fs dest).isSome = true := by
  simp only [downloadFile]
  split
  · simp
  · split
    · simp
    · split
      · simp
      · split
        · simp
        · split
          · simp
          · split
            · simp
            · intro _
              simp [setFs]

/-- C1: for every manifest whose versions list contains an entry with the
requested id, findVersionURL returns the metadata URL of the first such
entry in sequence order. -/
theorem findVersionURL_first_match (m : VersionManifest) (x : String)
    (h : ∃ v ∈ m.versions, v.id = x) :
    ∃ v, m.versions.find? (fun r => r.id = x) = some v ∧
      findVersionURL m x = Except.ok v.url := by
  obtain ⟨w, hw, hid⟩ := h
  have hsome : (m.versions.find? (fun r => r.id = x)).isSome := by
    rw [List.find?_isSome]
    exact ⟨w, hw, by simpa using hid⟩
  obtain ⟨v, hv⟩ := Option.isSome_iff_exists.mp hsome
  refine ⟨v, hv, ?_⟩
  unfold findVersionURL
  rw [findVersionAux_eq_find?, hv]

/-- C1 witness: on a manifest with two entries sharing id "a", the URL of
the first one is returned. -/
theorem findVersionURL_first_match_witness :
    findVersionURL ⟨⟨"", ""⟩, [⟨"a", "u1"⟩, ⟨"a", "u2"⟩, ⟨"b", "u3"⟩]⟩ "a" =
      Except.ok "u1" := by
  obtain ⟨v, hv, hres⟩ := findVersionURL_first_match
    ⟨⟨"", ""⟩, [⟨"a", "u1"⟩, ⟨"a", "u2"⟩, ⟨"b", "u3"⟩]⟩ "a"
    ⟨⟨"a", "u1"⟩, by decide, rfl⟩
  have hv0 : ([⟨"a", "u1"⟩, ⟨"a", "u2"⟩, ⟨"b", "u3"⟩] : List VersionRef).find?
      (fun r => r.id = "a") = some ⟨"a", "u1"⟩ := by decide
  have hv1 : ([⟨"a", "u1"⟩, ⟨"a", "u2"⟩, ⟨"b", "u3"⟩] : List VersionRef).find?
      (fun r => r.id = "a") = some v := hv
  obtain rfl := Option.some.inj (hv1.symm.trans hv0)
  exact hres

/-- C2: a download whose destination already holds a node is skipped at
once, with the filesystem unchanged and zero network requests; and a
second call after a completed first call is likewise skipped with zero
network requests. -/
theorem download_idempotent (env env2 : DlEnv) (url url2 dest : String)
    (fs : Fs) :
    ((fs dest).isSome = true →
        downloadFile env url dest fs = ⟨[fs], fs, .skipped, []⟩) ∧
    ((downloadFile env url dest fs).outcome = .downloaded →
        downloadFile env2 url2 dest (downloadFile env url dest fs).fs =
          ⟨[(downloadFile env url dest fs).fs],
            (downloadFile env url dest fs).fs, .skipped, []⟩) := by
  constructor
  · intro h
    unfold downloadFile
    rw [if_pos h]
  · intro h
    have hs := downloaded_dest_isSome env url dest fs h
    generalize hF : downloadFile env url dest fs = F at hs ⊢
    unfold downloadFile
    rw [if_pos hs]

/-- C2 witness: with a file already at "/d.jar" the step skips, leaves the
filesystem as is, and issues no request. -/
theorem download_idempotent_witness :
    downloadFile dlEnvNet "u" "/d.jar" fsOne = ⟨[fsOne], fsOne, .skipped, []⟩ :=
  (download_idempotent dlEnvNet dlEnvNet "u" "u" "/d.jar" fsOne).1 (by decide)

/-- Writing the temporary path preserves absence of the destination and
agreement with the initial filesystem away from the temporary path. -/
theorem setFs_pres (fs g : Fs) (dest tmp : String) (n : Node)
    (hne : dest ≠ tmp)
    (hg : g dest = none ∧ ∀ p, p ≠ tmp → g p = fs p) :
    (setFs g tmp n) dest = none ∧ ∀ p, p ≠ tmp → (setFs g tmp n) p = fs p :=
  ⟨by simp [setFs, hne, hg.1], fun p hp => by simp [setFs, hp, hg.2 p hp]⟩

/-- C3: with no node initially at the destination, every filesystem state
the download step passes through, except the final one, leaves the
destination absent and touches no path other than dest + ".partial"; and
when the step does not complete, this holds of the final state too. The
trace agrees with the returned filesystem. -/
theorem download_crash_safe (env : DlEnv) (url dest : String) (fs : Fs)
    (h : fs dest = none) :
    ((downloadFile env url dest fs).states.getLast? =
        some (downloadFile env url dest fs).fs) ∧
    (∀ g ∈ (downloadFile env url dest fs).states.dropLast,
        g dest = none ∧ ∀ p, p ≠ dest ++ ".partial" → g p = fs p) ∧
    ((downloadFile env url dest fs).outcome ≠ DlOutcome.downloaded →
        ∀ g ∈ (downloadFile env url dest fs).states,
          g dest = none ∧ ∀ p, p ≠ dest ++ ".partial" → g p = fs p) := by
  have hne : dest ≠ dest ++ ".partial" := ne_append_dot_part dest
  have s0 : fs dest = none ∧ ∀ p, p ≠ dest ++ ".partial" → fs p = fs p :=
    ⟨h, fun p hp => rfl⟩
  have s1 := setFs_pres fs fs dest (dest ++ ".partial") (.file "") hne s0
  simp only [downloadFile]
  split
  next h0 =>
    rw [h] at h0
    simp at h0
  next h0 =>
    split
    · refine ⟨rfl, ?_, ?_⟩
      · intro g hg
        simp only [List.dropLast, List.not_mem_nil] at hg
      · intro _ g hg
        simp only [List.mem_cons, List.not_mem_nil, or_false] at hg
        rcases hg with rfl
        exact s0
    · split
      · refine ⟨rfl, ?_, ?_⟩
        · intro g hg
          simp only [List.dropLast, List.mem_cons, List.not_mem_nil,
            or_false] at hg
          rcases hg with rfl
          exact s0
        · intro _ g hg
          simp only [List.mem_cons, List.not_mem_nil, or_false] at hg
          rcases hg with rfl | rfl
          · exact s0
          · exact s1
      · split
        · refine ⟨rfl, ?_, ?_⟩
          · intro g hg
            simp only [List.dropLast, List.mem_cons, List.not_mem_nil,
              or_false] at hg
            rcases hg with rfl
            exact s0
          · intro _ g hg
            simp only [List.mem_cons, List.not_mem_nil, or_false] at hg
            rcases hg with rfl | rfl
            · exact s0
            · exact s1
        · split
          · refine ⟨rfl, ?_, ?_⟩
            · intro g hg
              simp only [List.dropLast, List.mem_cons, List.not_mem_nil,
                or_false] at hg
              rcases hg with rfl | rfl
              · exact s0
              · exact s1
            · intro _ g hg
              simp only [List.mem_cons, List.not_mem_nil, or_false] at hg
              rcases hg with rfl | rfl | rfl
              · exact s0
              · exact s1
              · exact setFs_pres fs _ dest (dest ++ ".partial") _ hne s1
          · split
            · refine ⟨rfl, ?_, ?_⟩
              · intro g hg
                simp only [List.dropLast, List.mem_cons, List.not_mem_nil,
                  or_false] at hg
                rcases hg with rfl | rfl
                · exact s0
                · exact s1
              · intro _ g hg
                simp only [List.mem_cons, List.not_mem_nil, or_false] at hg
                rcases hg with rfl | rfl | rfl
                · exact s0
                · exact s1
                · exact setFs_pres fs _ dest (dest ++ ".partial") _ hne s1
            · refine ⟨rfl, ?_, ?_⟩
              · intro g hg
                simp only [List.dropLast, List.mem_cons, List.not_mem_nil,
                  or_false] at hg
                rcases hg with rfl | rfl | rfl
                · exact s0
                · exact s1
                · exact setFs_pres fs _ dest (dest ++ ".partial") _ hne s1
              · intro hout
                exact absurd rfl hout

/-- C3 witness: on a successful run from an empty filesystem the recorded
trace ends in the returned filesystem. -/
theorem download_crash_safe_witness :
    (downloadFile dlEnvOk "u" "/d.jar" fsEmpty).states.getLast? =
      some (downloadFile dlEnvOk "u" "/d.jar" fsEmpty).fs :=
  (download_crash_safe dlEnvOk "u" "/d.jar" fsEmpty rfl).1

/-- C9: the download step mutates no path other than dest + ".partial" and
dest itself, and whenever it returns skipped or any error the node
previously at dest (or its absence) is unchanged. -/
theorem download_frame (env : DlEnv) (url dest : String) (fs : Fs) :
    ((downloadFile env url dest fs).outcome ≠ DlOutcome.downloaded →
        (downloadFile env url dest fs).fs dest = fs dest) ∧
    (∀ p, p ≠ dest ++ ".partial" → p ≠ dest →
        (downloadFile env url dest fs).fs p = fs p) := by
  have hne : dest ≠ dest ++ ".partial" := ne_append_dot_part dest
  simp only [downloadFile]
  split
  · exact ⟨fun _ => rfl, fun p _ _ => rfl⟩
  · split
    · exact ⟨fun _ => rfl, fun p _ _ => rfl⟩
    · split
      · exact ⟨fun _ => by simp [setFs, hne], fun p hp _ => by simp [setFs, hp]⟩
      · split
        · exact ⟨fun _ => by simp [setFs, hne],
            fun p hp _ => by simp [setFs, hp]⟩
        · split
          · exact ⟨fun _ => by simp [setFs, hne],
              fun p hp _ => by simp [setFs, hp]⟩
          · split
            · exact ⟨fun _ => by simp [setFs, hne],
                fun p hp _ => by simp [setFs, hp]⟩
            · exact ⟨fun hout => absurd rfl hout,
                fun p hp hpd => by simp [setFs, delFs, hp, hpd]⟩

/-- C9 witness: after a transport failure the destination is untouched. -/
theorem download_frame_witness :
    (downloadFile dlEnvNet "u" "/d.jar" fsEmpty).fs "/d.jar" =
      fsEmpty "/d.jar" :=
  (download_frame dlEnvNet "u" "/d.jar" fsEmpty).1 (by decide)

/-- C4 counterexample: the empty string is a requested id that appears in
no entry of m0's versions list, yet resolution substitutes the latest
release and succeeds, and the whole run exits 0. -/
theorem resolve_empty_requested_counterexample :
    m0.versions.all (fun v => v.id != "") = true ∧
    (resolve m0 "").2 = Except.ok "https://x/1.20.2.json" ∧
    (runMain cfg0 env0 fsEmpty).exitCode = 0 := by
  refine ⟨by decide, rfl, rfl⟩

/-- C4 (amended): for every non-empty requested id absent from the
manifest's versions list, findVersionURL fails, and the run stops there:
exit code 1, a single standard-error line naming the id, and no network
request after the manifest fetch. -/
theorem version_absent_terminal (cfg : Config) (env : Env) (fs : Fs)
    (m : VersionManifest) (x : String)
    (hx : cfg.version = x) (hne : x ≠ "")
    (hm : fetchJSON env.net20 versionManifestURL decodeManifest =
      Except.ok m)
    (habs : ∀ v ∈ m.versions, v.id ≠ x) :
    findVersionURL m x = Except.error "version not found" ∧
    runMain cfg env fs =
      ⟨1, fs, ["Fetching version manifest..."],
        ["version not found in manifest: " ++ x], [versionManifestURL],
        []⟩ := by
  have hf : findVersionURL m x = Except.error "version not found" :=
    findVersionAux_none m.versions x habs
  refine ⟨hf, ?_⟩
  simp only [runMain, hm, hx, if_neg hne, hf]

/-- C4 witness: requesting 9.9.9 against the scenario manifest exits 1
with a diagnostic naming 9.9.9 after only the manifest request. -/
theorem version_absent_terminal_witness :
    runMain ⟨"9.9.9", false, "/mc", "Player"⟩ env0 fsEmpty =
      ⟨1, fsEmpty, ["Fetching version manifest..."],
        ["version not found in manifest: 9.9.9"], [versionManifestURL],
        []⟩ :=
  (version_absent_terminal ⟨"9.9.9", false, "/mc", "Player"⟩ env0 fsEmpty
    m0 "9.9.9" rfl (by decide) rfl (by decide)).2

/-- C5: resolving with the empty requested id gives the same resolved id
and the same lookup result as resolving with the manifest's latest release
id given explicitly. -/
theorem resolve_empty_eq_latest (m : VersionManifest) :
    resolve m "" = resolve m m.latest.release := by
  unfold resolve
  by_cases h : m.latest.release = "" <;> simp [h]

/-- C6: the run exits 0 exactly when every step it performs succeeds, and
exits 1 otherwise; no other exit code occurs. -/
theorem exit_code_contract (cfg : Config) (env : Env) (fs : Fs) :
    (runMain cfg env fs).exitCode =
      if allStepsSucceed cfg env fs then 0 else 1 := by
  simp only [runMain, allStepsSucceed]
  repeat' split
  all_goals first | rfl | simp_all

/-- C7: a non-2xx response on the artifact GET fails the step with the
status recorded in the error, and the just-created temporary file stays
on disk while the destination stays absent. -/
theorem download_non2xx_leaves_temp (env : DlEnv) (url dest : String)
    (fs : Fs) (s : Nat) (b : StreamBody)
    (h0 : fs dest = none)
    (h1 : env.createFails (dest ++ ".partial") = false)
    (h2 : env.net url = .resp s b)
    (h3 : ¬(200 ≤ s ∧ s ≤ 299)) :
    (downloadFile env url dest fs).outcome =
      DlOutcome.failed (.httpStatus s) ∧
    (downloadFile env url dest fs).fs (dest ++ ".partial") =
      some (.file "") ∧
    (downloadFile env url dest fs).fs dest = none := by
  have hne : dest ≠ dest ++ ".partial" := ne_append_dot_part dest
  have hs : s ≠ 200 := by
    intro hEq
    exact h3 ⟨by omega, by omega⟩
  simp only [downloadFile, h0, h1, h2, Option.isSome_none, Bool.false_eq_true,
    if_false, if_neg, hs]
  simp [hs, setFs, hne, h0]

/-- C7 witness: a 404 on a fresh destination fails with that status and
leaves the empty temporary file. -/
theorem download_non2xx_leaves_temp_witness :
    (downloadFile dlEnv404 "u" "/d.jar" fsEmpty).outcome =
      DlOutcome.failed (.httpStatus 404) ∧
    (downloadFile dlEnv404 "u" "/d.jar" fsEmpty).fs "/d.jar.partial" =
      some (.file "") ∧
    (downloadFile dlEnv404 "u" "/d.jar" fsEmpty).fs "/d.jar" = none :=
  download_non2xx_leaves_temp dlEnv404 "u" "/d.jar" fsEmpty 404 (.whole "")
    rfl rfl rfl (by decide)

/-- C8: two runs whose configurations differ only in the -username flag
have identical observable results: same exit code, filesystem, output
lines, network requests and java invocations. -/
theorem username_no_influence (c1 c2 : Config) (env : Env) (fs : Fs)
    (hv : c1.version = c2.version) (hr : c1.runOffline = c2.runOffline)
    (hm : c1.mcdir = c2.mcdir) :
    runMain c1 env fs = runMain c2 env fs := by
  obtain ⟨v1, r1, m1, u1⟩ := c1
  obtain ⟨v2, r2, m2, u2⟩ := c2
  simp only at hv hr hm
  subst hv
  subst hr
  subst hm
  rfl

/-- C8 witness: two concrete runs differing only in the username value
coincide. -/
theorem username_no_influence_witness :
    runMain ⟨"", false, "/mc", "Alice"⟩ env0 fsEmpty =
      runMain ⟨"", false, "/mc", "Bob"⟩ env0 fsEmpty :=
  username_no_influence ⟨"", false, "/mc", "Alice"⟩
    ⟨"", false, "/mc", "Bob"⟩ env0 fsEmpty rfl rfl rfl

/-- C10 counterexample: syntactically well-formed JSON bodies on which a
decoder fails: a numeric top level, an object whose versions field is a
number, an object whose Versions key matches the versions field only
case-insensitively yet carries a number, and a descriptor whose size
field is an integer beyond the int64 range. -/
theorem decode_wellformed_failure_counterexample :
    exOk (decodeManifest (Json.num 5)) = false ∧
    exOk (decodeVersionJSON (Json.num 5)) = false ∧
    exOk (decodeManifest (Json.obj [("versions", Json.num 5)])) = false ∧
    exOk (decodeManifest (Json.obj [("Versions", Json.num 5)])) = false ∧
    exOk (decodeVersionJSON (Json.obj [("downloads", Json.obj [("client",
      Json.obj [("size", Json.num 100000000000000000000)])])])) = false :=
  ⟨rfl, rfl, rfl, rfl, rfl⟩

/-- C10 (amended): decoding a well-formed JSON body succeeds exactly when
every key matching an expected field (case-insensitively, duplicate
occurrences included) carries a value of the expected shape — string
fields take strings or null, the int-typed size field takes only plain
integer literals within the int64 range — so decoding also fails on
shape violations, not only on malformed JSON; fields with no matching
key keep their zero values: an empty object yields the empty manifest
(empty versions list) and the empty descriptor (empty download URL). -/
theorem decode_schema_tolerant :
    (∀ j : Json, exOk (decodeManifest j) = manifestWellTyped j ∧
        exOk (decodeVersionJSON j) = versionJSONWellTyped j) ∧
    decodeManifest (Json.obj []) = Except.ok ⟨⟨"", ""⟩, []⟩ ∧
    decodeVersionJSON (Json.obj []) = Except.ok ⟨"", "", ⟨⟨"", 0, ""⟩⟩⟩ :=
  ⟨fun j => ⟨exOk_decodeManifest j, exOk_decodeVersionJSON j⟩, rfl, rfl⟩

end Launcher
